import Mathlib

/-
Verification of the LoRA weight-merging engine (scripts/merge_character_loras.py).

The script merges low-rank adapter ("LoRA") weight pairs into a base model
checkpoint.  We shallowly embed the core functions:

  * apply_lora_to_weights  (lines 43-152): pair extraction, key resolution,
    delta reconstruction, accumulation; the function prints the applied-pair
    count and returns the merged mapping,
  * the final bf16 cast of merge_loras_for_character (lines 193-194),
  * the per-adapter file-existence guard of merge_loras_for_character
    (lines 169-186), abstracting the filesystem as `String → Option WeightSet`.

Tensors are modelled as flat row-major lists of exact rationals together with
a shape and a dtype tag.  Casting between precisions (`Tensor.to`) is modelled
as a dtype retag that preserves the exact values: the claims under study are
either about dtype bookkeeping or are explicitly stated "in exact arithmetic",
so rounding is outside the model.  A raised-and-caught Python exception inside
the per-pair try block is modelled by `Option.none` (the pair is skipped).
torch.einsum broadcasts size-1 dimensions that share a subscript; the einsum
model reproduces that (if it raised instead, the pair would equally be
skipped, so the observable behaviour is identical for the inputs at issue).
-/

/-! ### String helpers (Python `in`, `str.replace`, `startswith`, slicing) -/

/-- Python `sub in s` on the character lists. -/
def containsSubChars : List Char → List Char → Bool
  | [], pat => pat.isEmpty
  | c :: rest, pat => pat.isPrefixOf (c :: rest) || containsSubChars rest pat

def containsSub (s pat : String) : Bool := containsSubChars s.data pat.data

/-- Python `str.replace`: left-to-right, non-overlapping; fuel = input length. -/
def replaceChars : Nat → List Char → List Char → List Char → List Char
  | 0, s, _, _ => s
  | _ + 1, [], _, _ => []
  | n + 1, c :: rest, pat, rep =>
    if pat.isPrefixOf (c :: rest) && !pat.isEmpty then
      rep ++ replaceChars n (List.drop pat.length (c :: rest)) pat rep
    else
      c :: replaceChars n rest pat rep

def strReplace (s pat rep : String) : String :=
  String.mk (replaceChars s.data.length s.data pat.data rep.data)

def strStartsWith (s pre : String) : Bool := pre.data.isPrefixOf s.data

def strDrop (s : String) (n : Nat) : String := String.mk (s.data.drop n)

/-! ### Data model: dtypes, tensors, weight sets -/

/-- The numeric precisions the script distinguishes. -/
inductive DType where
  | float32
  | bfloat16
  | float16
deriving DecidableEq

/-- A dense tensor: shape, dtype tag, flat row-major data (exact rationals). -/
structure Tensor where
  shape : List Nat
  dtype : DType
  data : List ℚ
deriving DecidableEq

/-- A weight set: ordered mapping from parameter identifier to tensor
(Python dict of tensors, as produced by safetensors `load_file`). -/
abbrev WeightSet := List (String × Tensor)

def defaultTensor : Tensor := ⟨[], DType.float32, []⟩

/-- First entry with the given key (Python dict lookup; dict keys are unique). -/
def findT : WeightSet → String → Option Tensor
  | [], _ => none
  | e :: rest, key => if e.1 == key then some e.2 else findT rest key

/-- Python `key in dict`. -/
def containsKey (w : WeightSet) (key : String) : Bool := (findT w key).isSome

/-- Python `dict[key]` (callers only use it on present keys). -/
def lookupT (w : WeightSet) (key : String) : Tensor := (findT w key).getD defaultTensor

/-- Python `dict[key] = val`: value update, identifier space unchanged. -/
def updateT : WeightSet → String → Tensor → WeightSet
  | [], _, _ => []
  | e :: rest, key, val => (e.1, if e.1 == key then val else e.2) :: updateT rest key val

def keysOf (w : WeightSet) : List String := w.map Prod.fst

/-! ### Tensor operations -/

/-- Python `t.to(d)` : dtype retag, exact values preserved (see header note). -/
def tensor_cast (t : Tensor) (d : DType) : Tensor := ⟨t.shape, d, t.data⟩

/-- Elementwise `a + b` for same-shape, same-dtype operands (the only use). -/
def tensor_add (a b : Tensor) : Tensor :=
  ⟨a.shape, a.dtype, List.zipWith (fun x y => x + y) a.data b.data⟩

/-- Python `t * c` for a float scalar `c`. -/
def tensor_smul (c : ℚ) (t : Tensor) : Tensor :=
  ⟨t.shape, t.dtype, t.data.map (fun x => x * c)⟩

/-- Python `t.item()` for the 0-d scalar tensors it is applied to. -/
def tensor_item (t : Tensor) : ℚ := t.data.getD 0 0

def dim (t : Tensor) (i : Nat) : Nat := t.shape.getD i 0

def entry2 (t : Tensor) (i j : Nat) : ℚ := t.data.getD (i * dim t 1 + j) 0

def entry4 (t : Tensor) (a b c d : Nat) : ℚ :=
  t.data.getD (((a * dim t 1 + b) * dim t 2 + c) * dim t 3 + d) 0

def sumRange (n : Nat) (f : Nat → ℚ) : ℚ := (List.range n).foldl (fun acc k => acc + f k) 0

/-- The value of `a @ b` for 2-d `a : [m, r]`, `b : [r, p]`. -/
def matmulVal (a b : Tensor) : Tensor :=
  ⟨[dim a 0, dim b 1], a.dtype,
   (List.range (dim a 0 * dim b 1)).map (fun idx =>
     sumRange (dim a 1) (fun k => entry2 a (idx / dim b 1) k * entry2 b k (idx % dim b 1)))⟩

/-- Python `a @ b` : torch.matmul raises (RuntimeError, caught by the per-pair
`except`) on an inner-dimension or dtype mismatch. -/
def matmul2 (a b : Tensor) : Option Tensor :=
  if a.dtype = b.dtype ∧ dim a 1 = dim b 0 then some (matmulVal a b) else none

/-- Broadcast of two sizes sharing an einsum subscript. -/
def bdim (a b : Nat) : Option Nat :=
  if a = b then some a else if a = 1 then some b else if b = 1 then some a else none

/-- Index into a possibly-broadcast (size-1) dimension. -/
def bix (d i : Nat) : Nat := if d = 1 then 0 else i

/-- Data of `torch.einsum('orhw,rich->oicw', up, down)` with contraction
extents `rN` (subscript r) and `hN` (subscript h): output axes are
o = up dim 0, i = down dim 1, c = down dim 2, w = up dim 3. -/
def einsumConvVal (up down : Tensor) (rN hN : Nat) : Tensor :=
  ⟨[dim up 0, dim down 1, dim down 2, dim up 3], up.dtype,
   (List.range (dim up 0 * dim down 1 * dim down 2 * dim up 3)).map (fun idx =>
     sumRange rN (fun r => sumRange hN (fun h =>
       entry4 up (((idx / dim up 3) / dim down 2) / dim down 1)
         (bix (dim up 1) r) (bix (dim up 2) h) (idx % dim up 3) *
       entry4 down (bix (dim down 0) r) (((idx / dim up 3) / dim down 2) % dim down 1)
         ((idx / dim up 3) % dim down 2) (bix (dim down 3) h))))⟩

/-- Value of `torch.einsum('orhw,rich->oicw', up, down)` : the subscripts r and h are
contracted; sizes sharing a subscript must agree or broadcast from 1, and the
operand dtypes must agree, else torch raises (caught → pair skipped). -/
def einsum_orhw_rich_oicw (up down : Tensor) : Option Tensor :=
  if up.dtype = down.dtype then
    match bdim (dim up 1) (dim down 0), bdim (dim up 2) (dim down 3) with
    | some rN, some hN => some (einsumConvVal up down rN hN)
    | _, _ => none
  else none

/-- Python `t.reshape(shp)` : raises (caught → pair skipped) when element counts
differ, else reinterprets the same data under the new shape. -/
def reshapeT (t : Tensor) (shp : List Nat) : Option Tensor :=
  if t.shape.prod = shp.prod then some ⟨shp, t.dtype, t.data⟩ else none

/-- Modelled from the spec: the convolutional delta reconstruction the spec
describes for 4-d factor pairs, section 4.3 — "tensor contraction combining
up's output-channel and rank axes with down's rank, input-channel, height and
width axes, yielding an [out_channels, in_channels, kh, kw] tensor", i.e.
delta[o, i, h, w] = sum over r of up[o, r, 0, 0] * down[r, i, h, w].
Stated only to be compared against the source's einsum (claim C1). -/
def conv_delta_spec (up down : Tensor) : Tensor :=
  ⟨[dim up 0, dim down 1, dim down 2, dim down 3], up.dtype,
   (List.range (dim up 0 * dim down 1 * dim down 2 * dim down 3)).map (fun idx =>
     sumRange (dim down 0) (fun r =>
       entry4 up ((((idx / dim down 3) / dim down 2) / dim down 1)) r 0 0 *
       entry4 down r (((idx / dim down 3) / dim down 2) % dim down 1)
         ((idx / dim down 3) % dim down 2) (idx % dim down 3)))⟩

/-! ### Key Resolver (lines 99-125) -/

/-- Strip the `lora_unet_` prefix (lines 101-103). -/
def map_base_key (g : String) : String :=
  if strStartsWith g ("lora_unet_") then strDrop g 10 else g

/-- The ordered candidate list of lines 107-112. -/
def base_key_candidates (k : String) : List String :=
  [k,
   strReplace k ("_") ("."),
   String.append ("model.diffusion_model.") k,
   String.append ("model.diffusion_model.") (strReplace k ("_") ("."))]

/-- One loop iteration of lines 115-122: direct membership first, then with
the `.weight` suffix appended. -/
def candidate_hit (m : WeightSet) (c : String) : Option String :=
  if containsKey m c then some c
  else if containsKey m (String.append c (".weight")) then some (String.append c (".weight"))
  else none

/-- The resolution loop of lines 114-122: first candidate that hits. -/
def resolve_target (m : WeightSet) (k : String) : Option String :=
  (base_key_candidates k).findSome? (candidate_hit m)

/-! ### Adapter Pair Extractor (lines 56-63) -/

/-- Add to the `lora_keys` set (first-occurrence order determinizes the
Python set iteration; the spec leaves within-adapter order arbitrary). -/
def insertOnce (acc : List String) (s : String) : List String :=
  if acc.contains s then acc else acc ++ [s]

/-- The scan of lines 57-63 producing the group identifiers. -/
def lora_group_keys (lora : WeightSet) : List String :=
  lora.foldl (fun acc e =>
    if containsSub e.1 (".lora_down.") then
      insertOnce acc (strReplace e.1 (".lora_down.weight") (""))
    else if containsSub e.1 (".lora_A.") then
      insertOnce acc (strReplace e.1 (".lora_A.weight") (""))
    else acc) []

/-- Naming-convention dispatch of lines 72-84: convention 1 (`lora_down` /
`lora_up`) takes precedence over convention 2 (`lora_A` / `lora_B`);
the result carries (down key, up key). -/
def pair_conv (lora : WeightSet) (g : String) : Option (String × String) :=
  if containsKey lora (String.append g (".lora_down.weight")) then
    some (String.append g (".lora_down.weight"), String.append g (".lora_up.weight"))
  else if containsKey lora (String.append g (".lora_A.weight")) then
    some (String.append g (".lora_A.weight"), String.append g (".lora_B.weight"))
  else none

/-! ### Delta Reconstructor (lines 127-141) -/

/-- Lines 129-141: the try-block delta computation against the target's
current shape; `none` models a skip (a `continue` or a caught exception). -/
def compute_delta (down up : Tensor) (scale strength : ℚ) (targetShape : List Nat) :
    Option Tensor :=
  if down.shape.length = 2 ∧ up.shape.length = 2 then
    (matmul2 up down).map (fun m => tensor_smul strength (tensor_smul scale m))
  else if down.shape.length = 4 ∧ up.shape.length = 4 then
    (einsum_orhw_rich_oicw up down).bind (fun e =>
      if (tensor_smul strength (tensor_smul scale e)).shape = targetShape then
        some (tensor_smul strength (tensor_smul scale e))
      else reshapeT (tensor_smul strength (tensor_smul scale e)) targetShape)
  else none

/-! ### Accumulator (lines 65-152) -/

/-- Lines 91-97: `alpha` read from the `<group>.alpha` entry (via `.item()`),
defaulting to the down factor's leading dimension; `scale = alpha / rank` when
`rank > 0`, else `1`. -/
def lora_pair_scale (lora : WeightSet) (g : String) (down : Tensor) : ℚ :=
  if 0 < dim down 0 then
    ((findT lora (String.append g (".alpha"))).elim ((dim down 0 : ℚ)) tensor_item) /
      (dim down 0 : ℚ)
  else 1

/-- The whole per-group body of lines 66-144 up to the final shape test:
`some (target, delta)` when the pair will be applied, `none` when the group
is skipped (missing factor, unresolved target, unsupported shape, or a
caught exception). -/
def pair_decision (merged lora : WeightSet) (strength : ℚ) (g : String) :
    Option (String × Tensor) :=
  (pair_conv lora g).bind (fun ku =>
    if containsKey lora ku.2 then
      (resolve_target merged (map_base_key g)).bind (fun target =>
        (compute_delta (lookupT lora ku.1) (lookupT lora ku.2)
            (lora_pair_scale lora g (lookupT lora ku.1)) strength
            (lookupT merged target).shape).bind (fun d =>
          if d.shape = (lookupT merged target).shape then some (target, d) else none))
    else none)

/-- One iteration of the loop at line 66 over `(merged, applied)`:
lines 143-146 promote the target to the delta's dtype, add, and count. -/
def apply_group (lora : WeightSet) (strength : ℚ) (acc : WeightSet × Nat) (g : String) :
    WeightSet × Nat :=
  (pair_decision acc.1 lora strength g).elim acc (fun td =>
    (updateT acc.1 td.1 (tensor_add (tensor_cast (lookupT acc.1 td.1) td.2.dtype) td.2),
     acc.2 + 1))

/-- State of `apply_lora_to_weights` up to line 149: the working copy (line 53 clones
values, preserving the identifier space) and the `applied` counter. -/
def apply_lora_run (base_weights lora_weights : WeightSet) (strength : ℚ) :
    WeightSet × Nat :=
  (lora_group_keys lora_weights).foldl (apply_group lora_weights strength) (base_weights, 0)

/-- The value `apply_lora_to_weights` returns to its caller (line 152). -/
def apply_lora_to_weights (base_weights lora_weights : WeightSet) (strength : ℚ) :
    WeightSet :=
  (apply_lora_run base_weights lora_weights strength).1

/-- The applied-pair count the function prints on the console (line 151). -/
def apply_lora_printed_count (base_weights lora_weights : WeightSet) (strength : ℚ) :
    Nat :=
  (apply_lora_run base_weights lora_weights strength).2

/-! ### Finalizer (lines 193-194) -/

/-- The final cast: float32 tensors become bfloat16, all others pass through. -/
def finalize_weights (w : WeightSet) : WeightSet :=
  w.map (fun e => (e.1, if e.2.dtype = DType.float32 then tensor_cast e.2 DType.bfloat16 else e.2))

/-! ### Per-adapter merge loop (lines 169-186), filesystem abstracted -/

/-- One adapter slot: `fs path = none` models `os.path.exists` failing (the
warning branch: the adapter contributes nothing and no pair is applied);
`some lora` models a successful load. -/
def merge_step (fs : String → Option WeightSet) (w : WeightSet) (e : String × ℚ) :
    WeightSet × Nat :=
  (fs e.1).elim (w, 0) (fun lora => apply_lora_run w lora e.2)

/-- The sequential application of an ordered merge job. -/
def merge_job (fs : String → Option WeightSet) (w : WeightSet) (jobs : List (String × ℚ)) :
    WeightSet :=
  jobs.foldl (fun acc e => (merge_step fs acc e).1) w

/-! ### Trace view of one accumulator pass (proof infrastructure) -/

/-- Fold a list of deltas into one tensor the way line 145 does. -/
def chain_add (v : Tensor) (ds : List Tensor) : Tensor :=
  ds.foldl (fun acc d => tensor_add (tensor_cast acc d.dtype) d) v

/-- Apply a list of (target, delta) updates in order. -/
def apply_trace (m : WeightSet) (T : List (String × Tensor)) : WeightSet :=
  T.foldl (fun acc p => updateT acc p.1 (tensor_add (tensor_cast (lookupT acc p.1) p.2.dtype) p.2)) m

/-- The value an entry `(k, v)` of `m` ends with after a trace. -/
def trace_val (m : WeightSet) (T : List (String × Tensor)) (k : String) (v : Tensor) : Tensor :=
  if (T.filter (fun p => p.1 == k)).isEmpty then v
  else chain_add (lookupT m k) ((T.filter (fun p => p.1 == k)).map Prod.snd)

/-! ### Concrete instances used by witnesses and counterexamples -/

/-- A 4-d down factor [rank=1, in=1, kh=1, kw=2]. -/
def conv_down : Tensor := ⟨[1, 1, 1, 2], DType.bfloat16, [1, 2]⟩

/-- A 4-d up factor [out=1, rank=1, 1, 1]. -/
def conv_up : Tensor := ⟨[1, 1, 1, 1], DType.bfloat16, [1]⟩

/-- A base with one conv kernel of shape [1, 1, 1, 2]. -/
def conv_base : WeightSet := [("w", ⟨[1, 1, 1, 2], DType.bfloat16, [5, 7]⟩)]

/-- An adapter holding the matching 4-d pair for `conv_base`. -/
def conv_lora : WeightSet :=
  [("w.lora_down.weight", conv_down), ("w.lora_up.weight", conv_up)]

/-- The end-to-end scenario base of spec section 8: one [2,2] float32 matrix. -/
def lin_base : WeightSet := [("layer.weight", ⟨[2, 2], DType.float32, [1, 2, 3, 4]⟩)]

def lin_down : Tensor := ⟨[1, 2], DType.float32, [1, 1]⟩

def lin_up : Tensor := ⟨[2, 1], DType.float32, [1, 2]⟩

/-- The matching linear adapter (down [1,2], up [2,1], alpha = 2). -/
def lin_lora : WeightSet :=
  [("lora_unet_layer.lora_down.weight", lin_down),
   ("lora_unet_layer.lora_up.weight", lin_up),
   ("lora_unet_layer.alpha", ⟨[], DType.float32, [2]⟩)]

/-- up·down × (alpha/rank = 2) × strength 1 for the pair above. -/
def lin_delta : Tensor := ⟨[2, 2], DType.float32, [2, 2, 4, 4]⟩

def c5_base : WeightSet := [("x", ⟨[1, 1], DType.float32, [4]⟩)]

/-- One resolvable pair; applied with strength 0 it changes no value. -/
def c5_lora : WeightSet :=
  [("x.lora_down.weight", ⟨[1, 1], DType.float32, [1]⟩),
   ("x.lora_up.weight", ⟨[1, 1], DType.float32, [1]⟩)]

/-- Mixed-precision weight set for the finalizer. -/
def fin_w : WeightSet :=
  [("a", ⟨[1], DType.float32, [1]⟩),
   ("b", ⟨[1], DType.bfloat16, [2]⟩),
   ("c", ⟨[1], DType.float16, [3]⟩)]

/-- Base whose identifier only matches the prefixed, dot-separated, suffixed
candidate. -/
def c4_base : WeightSet :=
  [("model.diffusion_model.a.b.weight", ⟨[1], DType.float32, [0]⟩)]

/-- An adapter with a down factor whose up factor is absent. -/
def c10_lora : WeightSet := [("g.lora_down.weight", ⟨[1, 1], DType.float32, [1]⟩)]

/-! ### Basic lemmas about the weight-set operations -/

theorem tensor_ext (a b : Tensor) (h1 : a.shape = b.shape) (h2 : a.dtype = b.dtype)
    (h3 : a.data = b.data) : a = b := by
  cases a; cases b; simp_all

theorem findT_updateT_self (m : WeightSet) (k : String) (v : Tensor) :
    findT (updateT m k v) k = (findT m k).map (fun _ => v) := by
  induction m with
  | nil => rfl
  | cons e rest ih =>
    by_cases h : e.1 = k
    · simp [updateT, findT, h]
    · simp [updateT, findT, h, ih]

theorem findT_updateT_ne (m : WeightSet) (k : String) (v : Tensor) (k' : String)
    (h : k' ≠ k) : findT (updateT m k v) k' = findT m k' := by
  induction m with
  | nil => rfl
  | cons e rest ih =>
    by_cases h1 : e.1 = k'
    · have h2 : ¬ e.1 = k := by
        intro hk; exact h (h1 ▸ hk ▸ rfl)
      simp [updateT, findT, h1, h2]
      exact fun hk => absurd hk h
    · simp [updateT, findT, h1, ih]

theorem containsKey_updateT (m : WeightSet) (k : String) (v : Tensor) (k' : String) :
    containsKey (updateT m k v) k' = containsKey m k' := by
  by_cases h : k' = k
  · subst h
    simp [containsKey, findT_updateT_self]
  · simp [containsKey, findT_updateT_ne m k v k' h]

theorem lookupT_updateT_self (m : WeightSet) (k : String) (v : Tensor)
    (h : containsKey m k = true) : lookupT (updateT m k v) k = v := by
  simp only [containsKey, Option.isSome_iff_exists] at h
  obtain ⟨t, ht⟩ := h
  simp [lookupT, findT_updateT_self, ht]

theorem lookupT_updateT_ne (m : WeightSet) (k : String) (v : Tensor) (k' : String)
    (h : k' ≠ k) : lookupT (updateT m k v) k' = lookupT m k' := by
  simp [lookupT, findT_updateT_ne m k v k' h]

theorem keysOf_updateT (m : WeightSet) (k : String) (v : Tensor) :
    keysOf (updateT m k v) = keysOf m := by
  induction m with
  | nil => rfl
  | cons e rest ih => simp [updateT, keysOf] at ih ⊢; exact ih

theorem mem_containsKey (w : WeightSet) (e : String × Tensor) (h : e ∈ w) :
    containsKey w e.1 = true := by
  induction w with
  | nil => cases h
  | cons f rest ih =>
    by_cases h1 : f.1 = e.1
    · simp [containsKey, findT, h1]
    · rcases List.mem_cons.mp h with h2 | h2
      · exact absurd (h2 ▸ rfl) h1
      · simp [containsKey, findT, h1]
        simpa [containsKey] using ih h2

theorem updateT_eq_map (m : WeightSet) (k : String) (v : Tensor) :
    updateT m k v = m.map (fun e => (e.1, if e.1 == k then v else e.2)) := by
  induction m with
  | nil => rfl
  | cons e rest ih => simp [updateT, ih]

theorem list_map_congr {α β : Type} (f g : α → β) :
    ∀ l : List α, (∀ a ∈ l, f a = g a) → l.map f = l.map g := by
  intro l
  induction l with
  | nil => intro _; rfl
  | cons a rest ih =>
    intro h
    simp only [List.map_cons]
    rw [h a (List.mem_cons_self a rest), ih (fun x hx => h x (List.mem_cons_of_mem a hx))]

theorem findSome?_congr {α β : Type} (f g : α → Option β) :
    ∀ l : List α, (∀ a ∈ l, f a = g a) → l.findSome? f = l.findSome? g := by
  intro l
  induction l with
  | nil => intro _; rfl
  | cons a rest ih =>
    intro h
    rw [List.findSome?_cons, List.findSome?_cons, h a (List.mem_cons_self a rest),
      ih (fun x hx => h x (List.mem_cons_of_mem a hx))]

theorem findSome?_split {α β : Type} (f : α → Option β) :
    ∀ (l : List α) (b : β), l.findSome? f = some b →
      ∃ l1 a l2, l = l1 ++ a :: l2 ∧ f a = some b ∧ ∀ x ∈ l1, f x = none := by
  intro l
  induction l with
  | nil => intro b h; simp [List.findSome?] at h
  | cons a rest ih =>
    intro b h
    rw [List.findSome?_cons] at h
    cases hfa : f a with
    | some c =>
      rw [hfa] at h
      refine ⟨[], a, rest, by simp, ?_, by simp⟩
      rw [hfa]; exact h
    | none =>
      rw [hfa] at h
      obtain ⟨l1, x, l2, hsplit, hx, hnone⟩ := ih b h
      refine ⟨a :: l1, x, l2, by simp [hsplit], hx, ?_⟩
      intro y hy
      rcases List.mem_cons.mp hy with h2 | h2
      · exact h2 ▸ hfa
      · exact hnone y h2

theorem findSome?_none_all {α β : Type} (f : α → Option β) :
    ∀ l : List α, l.findSome? f = none → ∀ a ∈ l, f a = none := by
  intro l
  induction l with
  | nil => intro _ a ha; cases ha
  | cons a rest ih =>
    intro h x hx
    rw [List.findSome?_cons] at h
    cases hfa : f a with
    | some c => rw [hfa] at h; cases h
    | none =>
      rw [hfa] at h
      rcases List.mem_cons.mp hx with h2 | h2
      · exact h2 ▸ hfa
      · exact ih h x h2

/-! ### Tensor operation facts -/

theorem tensor_cast_shape (t : Tensor) (d : DType) : (tensor_cast t d).shape = t.shape := rfl

theorem tensor_cast_dtype (t : Tensor) (d : DType) : (tensor_cast t d).dtype = d := rfl

theorem tensor_cast_data (t : Tensor) (d : DType) : (tensor_cast t d).data = t.data := rfl

theorem tensor_add_shape (a b : Tensor) : (tensor_add a b).shape = a.shape := rfl

theorem tensor_add_dtype (a b : Tensor) : (tensor_add a b).dtype = a.dtype := rfl

theorem tensor_smul_shape (c : ℚ) (t : Tensor) : (tensor_smul c t).shape = t.shape := rfl

theorem tensor_smul_dtype (c : ℚ) (t : Tensor) : (tensor_smul c t).dtype = t.dtype := rfl

theorem tensor_smul_one (t : Tensor) : tensor_smul 1 t = t := by
  cases t; simp [tensor_smul]

theorem tensor_smul_smul (a b : ℚ) (t : Tensor) :
    tensor_smul a (tensor_smul b t) = tensor_smul (b * a) t := by
  refine tensor_ext _ _ rfl rfl ?_
  show List.map (fun x => x * a) (List.map (fun x => x * b) t.data) =
    List.map (fun x => x * (b * a)) t.data
  rw [List.map_map]
  refine list_map_congr _ _ _ (fun x _ => ?_)
  simp only [Function.comp_apply]
  ring

theorem reshapeT_smul (s : ℚ) (t : Tensor) (shp : List Nat) :
    reshapeT (tensor_smul s t) shp = (reshapeT t shp).map (tensor_smul s) := by
  by_cases h : t.shape.prod = shp.prod
  · simp [reshapeT, tensor_smul, h]
  · simp [reshapeT, tensor_smul, h]

/-! ### Resolver lemmas -/

theorem candidate_hit_mem (m : WeightSet) (c t : String) (h : candidate_hit m c = some t) :
    containsKey m t = true := by
  unfold candidate_hit at h
  split_ifs at h with h1 h2
  · cases h; exact h1
  · cases h; exact h2

theorem resolve_target_mem (m : WeightSet) (k t : String)
    (h : resolve_target m k = some t) : containsKey m t = true := by
  obtain ⟨l1, c, l2, _, hc, _⟩ := findSome?_split _ _ _ h
  exact candidate_hit_mem m c t hc

theorem candidate_hit_congr (m m' : WeightSet) (c : String)
    (hc : ∀ k0, containsKey m k0 = containsKey m' k0) :
    candidate_hit m c = candidate_hit m' c := by
  simp [candidate_hit, hc]

theorem resolve_target_congr (m m' : WeightSet) (k : String)
    (hc : ∀ k0, containsKey m k0 = containsKey m' k0) :
    resolve_target m k = resolve_target m' k :=
  findSome?_congr _ _ _ (fun c _ => candidate_hit_congr m m' c hc)

/-! ### Pair-decision lemmas -/

theorem pair_decision_inv (m l : WeightSet) (s : ℚ) (g t : String) (d : Tensor)
    (h : pair_decision m l s g = some (t, d)) :
    containsKey m t = true ∧ d.shape = (lookupT m t).shape := by
  unfold pair_decision at h
  cases hc : pair_conv l g with
  | none => rw [hc, Option.none_bind] at h; cases h
  | some ku =>
    rw [hc, Option.some_bind] at h
    by_cases hu : containsKey l ku.2 = true
    · rw [if_pos hu] at h
      cases hr : resolve_target m (map_base_key g) with
      | none => rw [hr, Option.none_bind] at h; cases h
      | some target =>
        rw [hr, Option.some_bind] at h
        cases hd : compute_delta (lookupT l ku.1) (lookupT l ku.2)
            (lora_pair_scale l g (lookupT l ku.1)) s (lookupT m target).shape with
        | none => rw [hd, Option.none_bind] at h; cases h
        | some d0 =>
          rw [hd, Option.some_bind] at h
          by_cases hs : d0.shape = (lookupT m target).shape
          · rw [if_pos hs] at h
            have h0 := Option.some.inj h
            have h1 : target = t := congrArg Prod.fst h0
            have h2 : d0 = d := congrArg Prod.snd h0
            rw [← h1, ← h2]
            exact ⟨resolve_target_mem m _ target hr, hs⟩
          · rw [if_neg hs] at h; cases h
    · rw [if_neg hu] at h; cases h

theorem pair_decision_congr (m m' l : WeightSet) (s : ℚ) (g : String)
    (hc : ∀ k0, containsKey m k0 = containsKey m' k0)
    (hshape : ∀ k0, (lookupT m k0).shape = (lookupT m' k0).shape) :
    pair_decision m l s g = pair_decision m' l s g := by
  unfold pair_decision
  cases hcv : pair_conv l g with
  | none => rw [Option.none_bind, Option.none_bind]
  | some ku =>
    rw [Option.some_bind, Option.some_bind]
    by_cases hu : containsKey l ku.2 = true
    · rw [if_pos hu, if_pos hu, resolve_target_congr m m' _ hc]
      cases resolve_target m' (map_base_key g) with
      | none => rfl
      | some target =>
        rw [Option.some_bind, Option.some_bind, hshape target]
    · rw [if_neg hu, if_neg hu]

theorem compute_delta_smul (down up : Tensor) (scale s : ℚ) (shp : List Nat) :
    compute_delta down up scale s shp = (compute_delta down up scale 1 shp).map (tensor_smul s) := by
  have hds : ∀ x : Tensor, tensor_smul s (tensor_smul 1 x) = tensor_smul s x := by
    intro x
    rw [tensor_smul_one]
  unfold compute_delta
  by_cases h2 : down.shape.length = 2 ∧ up.shape.length = 2
  · rw [if_pos h2, if_pos h2, Option.map_map]
    cases matmul2 up down with
    | none => rfl
    | some mm => simp [Function.comp, hds]
  · rw [if_neg h2, if_neg h2]
    by_cases h4 : down.shape.length = 4 ∧ up.shape.length = 4
    · rw [if_pos h4, if_pos h4]
      cases einsum_orhw_rich_oicw up down with
      | none => rfl
      | some e =>
        rw [Option.some_bind, Option.some_bind, tensor_smul_one]
        by_cases hs : (tensor_smul scale e).shape = shp
        · have hs1 : (tensor_smul s (tensor_smul scale e)).shape = shp := by
            rw [tensor_smul_shape]; exact hs
          rw [if_pos hs, if_pos hs1, Option.map_some']
        · have hs1 : ¬ (tensor_smul s (tensor_smul scale e)).shape = shp := by
            rw [tensor_smul_shape]; exact hs
          rw [if_neg hs, if_neg hs1, reshapeT_smul]
    · rw [if_neg h4, if_neg h4]; rfl

theorem pair_decision_smul (m l : WeightSet) (s : ℚ) (g : String) :
    pair_decision m l s g =
      (pair_decision m l 1 g).map (fun p => (p.1, tensor_smul s p.2)) := by
  unfold pair_decision
  cases pair_conv l g with
  | none => rw [Option.none_bind, Option.none_bind]; rfl
  | some ku =>
    rw [Option.some_bind, Option.some_bind]
    by_cases hu : containsKey l ku.2 = true
    · rw [if_pos hu, if_pos hu]
      cases resolve_target m (map_base_key g) with
      | none => rfl
      | some target =>
        rw [Option.some_bind, Option.some_bind, compute_delta_smul]
        cases compute_delta (lookupT l ku.1) (lookupT l ku.2)
            (lora_pair_scale l g (lookupT l ku.1)) 1 (lookupT m target).shape with
        | none => rfl
        | some d =>
          rw [Option.map_some', Option.some_bind, Option.some_bind]
          by_cases hs : d.shape = (lookupT m target).shape
          · have hs1 : (tensor_smul s d).shape = (lookupT m target).shape := by
              rw [tensor_smul_shape]; exact hs
            rw [if_pos hs, if_pos hs1, Option.map_some']
          · have hs1 : ¬ (tensor_smul s d).shape = (lookupT m target).shape := by
              rw [tensor_smul_shape]; exact hs
            rw [if_neg hs, if_neg hs1]; rfl
    · rw [if_neg hu, if_neg hu]; rfl

/-! ### Accumulator step lemmas -/

theorem lookupT_updateT_notmem (m : WeightSet) (k : String) (v : Tensor)
    (h : containsKey m k = false) : lookupT (updateT m k v) k = lookupT m k := by
  have h0 : findT m k = none := by
    cases hf : findT m k with
    | none => rfl
    | some t => rw [containsKey, hf] at h; cases h
  simp [lookupT, findT_updateT_self, h0]

theorem apply_group_none (lora : WeightSet) (s : ℚ) (m : WeightSet) (a : Nat) (g : String)
    (h : pair_decision m lora s g = none) : apply_group lora s (m, a) g = (m, a) := by
  show (pair_decision m lora s g).elim (m, a) _ = (m, a)
  rw [h, Option.elim_none]

theorem apply_group_some (lora : WeightSet) (s : ℚ) (m : WeightSet) (a : Nat) (g t : String)
    (d : Tensor) (h : pair_decision m lora s g = some (t, d)) :
    apply_group lora s (m, a) g =
      (updateT m t (tensor_add (tensor_cast (lookupT m t) d.dtype) d), a + 1) := by
  show (pair_decision m lora s g).elim (m, a) _ = _
  rw [h, Option.elim_some]

theorem apply_group_containsKey (lora : WeightSet) (s : ℚ) (m : WeightSet) (a : Nat)
    (g k : String) :
    containsKey (apply_group lora s (m, a) g).1 k = containsKey m k := by
  cases hd : pair_decision m lora s g with
  | none => rw [apply_group_none lora s m a g hd]
  | some td =>
    obtain ⟨t, d⟩ := td
    rw [apply_group_some lora s m a g t d hd]
    exact containsKey_updateT m t _ k

theorem apply_group_shape (lora : WeightSet) (s : ℚ) (m : WeightSet) (a : Nat)
    (g k : String) :
    (lookupT (apply_group lora s (m, a) g).1 k).shape = (lookupT m k).shape := by
  cases hd : pair_decision m lora s g with
  | none => rw [apply_group_none lora s m a g hd]
  | some td =>
    obtain ⟨t, d⟩ := td
    rw [apply_group_some lora s m a g t d hd]
    by_cases hk : k = t
    · subst hk
      obtain ⟨hmem, _⟩ := pair_decision_inv m lora s g k d hd
      rw [lookupT_updateT_self m k _ hmem]
      rfl
    · rw [lookupT_updateT_ne m t _ k hk]

/-! ### The accumulator as a trace over the base (decisions taken against the
initial key/shape profile, which every intermediate state shares) -/

theorem fold_apply_group_eq (lora : WeightSet) (s : ℚ) (base : WeightSet) :
    ∀ (L : List String) (m : WeightSet) (a : Nat),
      (∀ k, containsKey m k = containsKey base k) →
      (∀ k, (lookupT m k).shape = (lookupT base k).shape) →
      L.foldl (apply_group lora s) (m, a) =
        (apply_trace m (L.filterMap (pair_decision base lora s)),
         a + (L.filter (fun g => (pair_decision base lora s g).isSome)).length) := by
  intro L
  induction L with
  | nil =>
    intro m a _ _
    simp [apply_trace]
  | cons g L ih =>
    intro m a h1 h2
    rw [List.foldl_cons]
    have hpd : pair_decision m lora s g = pair_decision base lora s g :=
      pair_decision_congr m base lora s g h1 h2
    cases hd : pair_decision base lora s g with
    | none =>
      rw [apply_group_none lora s m a g (hpd.trans hd)]
      rw [ih m a h1 h2]
      simp [List.filterMap_cons, List.filter_cons, hd]
    | some td =>
      obtain ⟨t, d⟩ := td
      have hpd2 : pair_decision m lora s g = some (t, d) := hpd.trans hd
      rw [apply_group_some lora s m a g t d hpd2]
      obtain ⟨hmem, hshape⟩ := pair_decision_inv m lora s g t d hpd2
      have h1' : ∀ k, containsKey (updateT m t (tensor_add (tensor_cast (lookupT m t) d.dtype) d)) k
          = containsKey base k := fun k => (containsKey_updateT m t _ k).trans (h1 k)
      have h2' : ∀ k, (lookupT (updateT m t (tensor_add (tensor_cast (lookupT m t) d.dtype) d)) k).shape
          = (lookupT base k).shape := by
        intro k
        by_cases hk : k = t
        · subst hk
          rw [lookupT_updateT_self m k _ hmem]
          exact h2 k
        · rw [lookupT_updateT_ne m t _ k hk]
          exact h2 k
      rw [ih _ (a + 1) h1' h2']
      have hcons : apply_trace m ((t, d) :: L.filterMap (pair_decision base lora s)) =
          apply_trace (updateT m t (tensor_add (tensor_cast (lookupT m t) d.dtype) d))
            (L.filterMap (pair_decision base lora s)) := rfl
      rw [List.filterMap_cons, hd, List.filter_cons]
      simp only [hd, Option.isSome_some, if_true]
      rw [hcons]
      have hn : a + 1 + (List.filter (fun g => (pair_decision base lora s g).isSome) L).length
          = a + ((List.filter (fun g => (pair_decision base lora s g).isSome) L).length + 1) := by
        omega
      rw [hn]
      rfl

theorem apply_lora_run_eq (b l : WeightSet) (s : ℚ) :
    apply_lora_run b l s =
      (apply_trace b ((lora_group_keys l).filterMap (pair_decision b l s)),
       ((lora_group_keys l).filter (fun g => (pair_decision b l s g).isSome)).length) := by
  have h := fold_apply_group_eq l s b (lora_group_keys l) b 0 (fun _ => rfl) (fun _ => rfl)
  unfold apply_lora_run
  rw [h, Nat.zero_add]

theorem apply_trace_containsKey (T : List (String × Tensor)) :
    ∀ (m : WeightSet) (k : String), containsKey (apply_trace m T) k = containsKey m k := by
  induction T with
  | nil => intro m k; rfl
  | cons p T ih =>
    intro m k
    show containsKey
      (apply_trace (updateT m p.1 (tensor_add (tensor_cast (lookupT m p.1) p.2.dtype) p.2)) T) k = _
    rw [ih _ k, containsKey_updateT]

theorem apply_trace_shape (T : List (String × Tensor)) :
    ∀ (m : WeightSet) (k : String),
      (lookupT (apply_trace m T) k).shape = (lookupT m k).shape := by
  induction T with
  | nil => intro m k; rfl
  | cons p T ih =>
    intro m k
    show (lookupT
      (apply_trace (updateT m p.1 (tensor_add (tensor_cast (lookupT m p.1) p.2.dtype) p.2)) T) k).shape = _
    rw [ih _ k]
    by_cases hk : k = p.1
    · by_cases hm : containsKey m p.1 = true
      · rw [hk, lookupT_updateT_self m p.1 _ hm]
        rfl
      · rw [hk, lookupT_updateT_notmem m p.1 _ (by simpa using hm)]
    · rw [lookupT_updateT_ne m p.1 _ k hk]

/-! ### Pointwise algebra of delta accumulation -/

def zadd (x y : List ℚ) : List ℚ := List.zipWith (fun p q => p + q) x y

def zfold (v : List ℚ) (ls : List (List ℚ)) : List ℚ := ls.foldl zadd v

theorem zadd_swap : ∀ (x a b : List ℚ), zadd (zadd x a) b = zadd (zadd x b) a := by
  intro x
  induction x with
  | nil => intro a b; rfl
  | cons xh xt ih =>
    intro a b
    cases a with
    | nil =>
      cases b with
      | nil => rfl
      | cons bh bt => rfl
    | cons ah at1 =>
      cases b with
      | nil => rfl
      | cons bh bt =>
        show (xh + ah + bh) :: zadd (zadd xt at1) bt = (xh + bh + ah) :: zadd (zadd xt bt) at1
        rw [ih at1 bt]
        congr 1
        ring

theorem zfold_pull : ∀ (ls : List (List ℚ)) (x y : List ℚ),
    zfold (zadd x y) ls = zadd (zfold x ls) y := by
  intro ls
  induction ls with
  | nil => intro x y; rfl
  | cons d ls ih =>
    intro x y
    show zfold (zadd (zadd x y) d) ls = zadd (zfold (zadd x d) ls) y
    rw [zadd_swap x y d]
    exact ih (zadd x d) y

theorem zadd_scale_merge : ∀ (v d : List ℚ) (s1 s2 : ℚ),
    zadd (zadd v (d.map (fun q => q * s1))) (d.map (fun q => q * s2)) =
      zadd v (d.map (fun q => q * (s1 + s2))) := by
  intro v
  induction v with
  | nil => intro d s1 s2; rfl
  | cons vh vt ih =>
    intro d s1 s2
    cases d with
    | nil => rfl
    | cons dh dt =>
      show (vh + dh * s1 + dh * s2) :: zadd (zadd vt (dt.map (fun q => q * s1))) (dt.map (fun q => q * s2))
          = (vh + dh * (s1 + s2)) :: zadd vt (dt.map (fun q => q * (s1 + s2)))
      rw [ih dt s1 s2]
      congr 1
      ring

theorem zfold_scaled : ∀ (D : List (List ℚ)) (v : List ℚ) (s1 s2 : ℚ),
    zfold (zfold v (D.map (fun d => d.map (fun q => q * s1))))
        (D.map (fun d => d.map (fun q => q * s2)))
      = zfold v (D.map (fun d => d.map (fun q => q * (s1 + s2)))) := by
  intro D
  induction D with
  | nil => intro v s1 s2; rfl
  | cons d D ih =>
    intro v s1 s2
    show zfold (zfold (zadd v (d.map (fun q => q * s1))) (D.map (fun x => x.map (fun q => q * s1))))
        ((d.map (fun q => q * s2)) :: D.map (fun x => x.map (fun q => q * s2)))
      = zfold (zadd v (d.map (fun q => q * (s1 + s2)))) (D.map (fun x => x.map (fun q => q * (s1 + s2))))
    have h1 : zfold (zfold (zadd v (d.map (fun q => q * s1))) (D.map (fun x => x.map (fun q => q * s1))))
        ((d.map (fun q => q * s2)) :: D.map (fun x => x.map (fun q => q * s2)))
      = zfold (zadd (zfold (zadd v (d.map (fun q => q * s1))) (D.map (fun x => x.map (fun q => q * s1))))
          (d.map (fun q => q * s2))) (D.map (fun x => x.map (fun q => q * s2))) := rfl
    rw [h1, ← zfold_pull, zadd_scale_merge]
    exact ih (zadd v (d.map (fun q => q * (s1 + s2)))) s1 s2

/-! ### chain_add structure -/

theorem chain_add_cons (v : Tensor) (d : Tensor) (ds : List Tensor) :
    chain_add v (d :: ds) = chain_add (tensor_add (tensor_cast v d.dtype) d) ds := rfl

theorem chain_add_shape : ∀ (ds : List Tensor) (v : Tensor),
    (chain_add v ds).shape = v.shape := by
  intro ds
  induction ds with
  | nil => intro v; rfl
  | cons d ds ih =>
    intro v
    rw [chain_add_cons, ih]
    rfl

theorem chain_add_data : ∀ (ds : List Tensor) (v : Tensor),
    (chain_add v ds).data = zfold v.data (ds.map Tensor.data) := by
  intro ds
  induction ds with
  | nil => intro v; rfl
  | cons d ds ih =>
    intro v
    rw [chain_add_cons, ih]
    rfl

theorem chain_add_dtype : ∀ (ds : List Tensor) (v : Tensor),
    (chain_add v ds).dtype = (ds.getLast?).elim v.dtype Tensor.dtype := by
  intro ds
  induction ds with
  | nil => intro v; rfl
  | cons d ds ih =>
    intro v
    rw [chain_add_cons, ih]
    cases ds with
    | nil => rfl
    | cons e es => rfl

theorem list_getLast?_map {α β : Type} (f : α → β) :
    ∀ l : List α, (l.map f).getLast? = l.getLast?.map f := by
  intro l
  induction l with
  | nil => rfl
  | cons a l ih =>
    cases l with
    | nil => rfl
    | cons b l2 =>
      show ((f b :: l2.map f).getLast?) = ((b :: l2).getLast?).map f
      exact ih

theorem chain_add_scaled (v : Tensor) (D : List Tensor) (s1 s2 : ℚ) :
    chain_add (chain_add v (D.map (tensor_smul s1))) (D.map (tensor_smul s2)) =
      chain_add v (D.map (tensor_smul (s1 + s2))) := by
  have hdata : ∀ s : ℚ, (D.map (tensor_smul s)).map Tensor.data
      = (D.map Tensor.data).map (fun d => d.map (fun q => q * s)) := by
    intro s
    rw [List.map_map, List.map_map]
    exact list_map_congr _ _ D (fun t _ => rfl)
  refine tensor_ext _ _ ?_ ?_ ?_
  · rw [chain_add_shape, chain_add_shape, chain_add_shape]
  · rw [chain_add_dtype, chain_add_dtype, chain_add_dtype,
      list_getLast?_map (tensor_smul s2) D, list_getLast?_map (tensor_smul (s1 + s2)) D]
    cases hD : D.getLast? with
    | none => simp [list_getLast?_map, hD]
    | some t => rfl
  · rw [chain_add_data, chain_add_data, chain_add_data, hdata s1, hdata s2, hdata (s1 + s2)]
    exact zfold_scaled (D.map Tensor.data) v.data s1 s2

/-! ### Trace characterization -/

theorem lookupT_apply_trace (k : String) :
    ∀ (T : List (String × Tensor)) (m : WeightSet),
      (∀ p ∈ T, containsKey m p.1 = true) →
      lookupT (apply_trace m T) k =
        (if (T.filter (fun p => p.1 == k)).isEmpty then lookupT m k
         else chain_add (lookupT m k) ((T.filter (fun p => p.1 == k)).map Prod.snd)) := by
  intro T
  induction T with
  | nil => intro m _; rfl
  | cons p T ih =>
    intro m hmem
    have hmemT : ∀ q ∈ T, containsKey
        (updateT m p.1 (tensor_add (tensor_cast (lookupT m p.1) p.2.dtype) p.2)) q.1 = true := by
      intro q hq
      rw [containsKey_updateT]
      exact hmem q (List.mem_cons_of_mem p hq)
    show lookupT
      (apply_trace (updateT m p.1 (tensor_add (tensor_cast (lookupT m p.1) p.2.dtype) p.2)) T) k = _
    rw [ih _ hmemT]
    by_cases hk : p.1 = k
    · have hmp : containsKey m p.1 = true := hmem p (List.mem_cons_self p T)
      rw [← hk]
      rw [lookupT_updateT_self m p.1 _ hmp]
      rw [List.filter_cons]
      simp only [beq_self_eq_true, if_true]
      by_cases hemp : (T.filter (fun q => q.1 == p.1)).isEmpty = true
      · have hnil : T.filter (fun q => q.1 == p.1) = [] := List.isEmpty_iff.mp hemp
        rw [hnil]
        rfl
      · have hemp2 : (T.filter (fun q => q.1 == p.1)).isEmpty = false := by
          cases h0 : (T.filter (fun q => q.1 == p.1)).isEmpty with
          | true => exact absurd h0 hemp
          | false => rfl
        rw [hemp2]
        rfl
    · have hbeq : (p.1 == k) = false := by
        cases h0 : p.1 == k with
        | true => exact absurd (beq_iff_eq.mp h0) hk
        | false => rfl
      rw [lookupT_updateT_ne m p.1 _ k (fun hkk => hk hkk.symm)]
      rw [List.filter_cons]
      simp only [hbeq]
      rfl

theorem map_updateT {α : Type} (F : (String × Tensor) → α) (m : WeightSet) (k : String)
    (v : Tensor) :
    (updateT m k v).map F = m.map (fun e => F (e.1, if e.1 == k then v else e.2)) := by
  induction m with
  | nil => rfl
  | cons e rest ih =>
    show F (e.1, if e.1 == k then v else e.2) :: (updateT rest k v).map F = _
    rw [ih]
    rfl

theorem apply_trace_eq_map : ∀ (T : List (String × Tensor)) (m : WeightSet),
    (∀ p ∈ T, containsKey m p.1 = true) →
    apply_trace m T = m.map (fun e => (e.1, trace_val m T e.1 e.2)) := by
  intro T
  induction T with
  | nil =>
    intro m _
    show m = m.map (fun e => (e.1, trace_val m [] e.1 e.2))
    have h1 : ∀ e ∈ m, (fun e0 : String × Tensor => (e0.1, trace_val m [] e0.1 e0.2)) e = id e := by
      intro e _
      show (e.1, trace_val m [] e.1 e.2) = e
      rw [trace_val]
      rfl
    rw [list_map_congr _ id m h1, List.map_id]
  | cons p T ih =>
    intro m hmem
    have hmemT : ∀ q ∈ T, containsKey
        (updateT m p.1 (tensor_add (tensor_cast (lookupT m p.1) p.2.dtype) p.2)) q.1 = true := by
      intro q hq
      rw [containsKey_updateT]
      exact hmem q (List.mem_cons_of_mem p hq)
    have hmp : containsKey m p.1 = true := hmem p (List.mem_cons_self p T)
    show apply_trace (updateT m p.1 (tensor_add (tensor_cast (lookupT m p.1) p.2.dtype) p.2)) T = _
    rw [ih _ hmemT, map_updateT]
    refine list_map_congr _ _ m (fun e _ => ?_)
    show (e.1, trace_val (updateT m p.1 (tensor_add (tensor_cast (lookupT m p.1) p.2.dtype) p.2)) T
        e.1 (if e.1 == p.1 then tensor_add (tensor_cast (lookupT m p.1) p.2.dtype) p.2 else e.2))
      = (e.1, trace_val m (p :: T) e.1 e.2)
    by_cases hk : e.1 = p.1
    · have hbeq : (e.1 == p.1) = true := beq_iff_eq.mpr hk
      have hbeq2 : (p.1 == e.1) = true := beq_iff_eq.mpr hk.symm
      rw [hk] at hbeq hbeq2 ⊢
      simp only [hbeq, if_true]
      refine congrArg (fun x => (p.1, x)) ?_
      rw [trace_val, trace_val, List.filter_cons]
      simp only [hbeq2, if_true, List.isEmpty_cons, List.map_cons]
      rw [lookupT_updateT_self m p.1 _ hmp]
      by_cases hemp : (T.filter (fun q => q.1 == p.1)).isEmpty = true
      · have hnil : T.filter (fun q => q.1 == p.1) = [] := List.isEmpty_iff.mp hemp
        rw [hnil]
        simp only [List.isEmpty_nil, if_true, List.map_nil, Bool.false_eq_true, if_false]
        rfl
      · have hemp2 : (T.filter (fun q => q.1 == p.1)).isEmpty = false := by
          cases h0 : (T.filter (fun q => q.1 == p.1)).isEmpty with
          | true => exact absurd h0 hemp
          | false => rfl
        rw [hemp2]
        simp only [Bool.false_eq_true, if_false]
        rfl
    · have hbeq : (e.1 == p.1) = false := by
        cases h0 : e.1 == p.1 with
        | true => exact absurd (beq_iff_eq.mp h0) hk
        | false => rfl
      have hbeq2 : (p.1 == e.1) = false := by
        cases h0 : p.1 == e.1 with
        | true => exact absurd (beq_iff_eq.mp h0).symm hk
        | false => rfl
      simp only [hbeq, Bool.false_eq_true, if_false]
      refine congrArg (fun x => (e.1, x)) ?_
      rw [trace_val, trace_val, List.filter_cons]
      simp only [hbeq2, Bool.false_eq_true, if_false]
      rw [lookupT_updateT_ne m p.1 _ e.1 hk]

/-! ### Strength additivity of a trace (the algebraic heart of claim C6) -/

theorem list_filterMap_congr {α β : Type} (f g : α → Option β) :
    ∀ l : List α, (∀ a ∈ l, f a = g a) → l.filterMap f = l.filterMap g := by
  intro l
  induction l with
  | nil => intro _; rfl
  | cons a rest ih =>
    intro h
    rw [List.filterMap_cons, List.filterMap_cons, h a (List.mem_cons_self a rest),
      ih (fun x hx => h x (List.mem_cons_of_mem a hx))]

theorem list_isEmpty_map {α β : Type} (f : α → β) (l : List α) :
    (l.map f).isEmpty = l.isEmpty := by
  cases l with
  | nil => rfl
  | cons a rest => rfl

theorem trace_val_scaled (base : WeightSet) (Tc : List (String × Tensor)) (s1 s2 : ℚ)
    (k : String) (v : Tensor)
    (hmem1 : ∀ p ∈ Tc.map (fun p => (p.1, tensor_smul s1 p.2)), containsKey base p.1 = true) :
    trace_val (apply_trace base (Tc.map (fun p => (p.1, tensor_smul s1 p.2))))
        (Tc.map (fun p => (p.1, tensor_smul s2 p.2))) k
        (trace_val base (Tc.map (fun p => (p.1, tensor_smul s1 p.2))) k v)
      = trace_val base (Tc.map (fun p => (p.1, tensor_smul (s1 + s2) p.2))) k v := by
  have hfilter : ∀ s : ℚ, (Tc.map (fun p => (p.1, tensor_smul s p.2))).filter (fun q => q.1 == k)
      = (Tc.filter (fun q => q.1 == k)).map (fun p => (p.1, tensor_smul s p.2)) := by
    intro s
    rw [List.filter_map]
    rfl
  have hsnd : ∀ s : ℚ,
      ((Tc.filter (fun q => q.1 == k)).map (fun p => (p.1, tensor_smul s p.2))).map Prod.snd
        = ((Tc.filter (fun q => q.1 == k)).map Prod.snd).map (tensor_smul s) := by
    intro s
    rw [List.map_map, List.map_map]
    rfl
  simp only [trace_val, hfilter s1, hfilter s2, hfilter (s1 + s2)]
  by_cases hemp : (Tc.filter (fun q => q.1 == k)).isEmpty = true
  · have hnil : Tc.filter (fun q => q.1 == k) = [] := List.isEmpty_iff.mp hemp
    rw [hnil]
    simp
  · have hemp2 : (Tc.filter (fun q => q.1 == k)).isEmpty = false := by
      cases h0 : (Tc.filter (fun q => q.1 == k)).isEmpty with
      | true => exact absurd h0 hemp
      | false => rfl
    rw [list_isEmpty_map, list_isEmpty_map, list_isEmpty_map, hemp2]
    simp only [Bool.false_eq_true, if_false]
    rw [hsnd s2, hsnd (s1 + s2)]
    rw [lookupT_apply_trace k (Tc.map (fun p => (p.1, tensor_smul s1 p.2))) base hmem1]
    rw [hfilter s1, list_isEmpty_map, hemp2]
    simp only [Bool.false_eq_true, if_false]
    rw [hsnd s1]
    exact chain_add_scaled (lookupT base k) ((Tc.filter (fun q => q.1 == k)).map Prod.snd) s1 s2

theorem apply_trace_scaled (base : WeightSet) (Tc : List (String × Tensor)) (s1 s2 : ℚ)
    (hmemC : ∀ p ∈ Tc, containsKey base p.1 = true) :
    apply_trace (apply_trace base (Tc.map (fun p => (p.1, tensor_smul s1 p.2))))
        (Tc.map (fun p => (p.1, tensor_smul s2 p.2)))
      = apply_trace base (Tc.map (fun p => (p.1, tensor_smul (s1 + s2) p.2))) := by
  have hmem : ∀ s : ℚ, ∀ p ∈ Tc.map (fun p => (p.1, tensor_smul s p.2)),
      containsKey base p.1 = true := by
    intro s p hp
    obtain ⟨q, hq, hqe⟩ := List.mem_map.mp hp
    rw [← hqe]
    exact hmemC q hq
  have hmem2 : ∀ p ∈ Tc.map (fun p => (p.1, tensor_smul s2 p.2)),
      containsKey (apply_trace base (Tc.map (fun p => (p.1, tensor_smul s1 p.2)))) p.1 = true := by
    intro p hp
    rw [apply_trace_containsKey]
    exact hmem s2 p hp
  rw [apply_trace_eq_map _ _ hmem2, apply_trace_eq_map _ _ (hmem (s1 + s2))]
  refine Eq.trans (congrArg (List.map (fun e : String × Tensor =>
    (e.1, trace_val (apply_trace base (Tc.map (fun p => (p.1, tensor_smul s1 p.2))))
      (Tc.map (fun p => (p.1, tensor_smul s2 p.2))) e.1 e.2)))
    (apply_trace_eq_map _ _ (hmem s1))) ?_
  rw [List.map_map]
  refine list_map_congr _ _ base (fun e _ => ?_)
  show (e.1, trace_val (apply_trace base (Tc.map (fun p => (p.1, tensor_smul s1 p.2))))
      (Tc.map (fun p => (p.1, tensor_smul s2 p.2))) e.1
      (trace_val base (Tc.map (fun p => (p.1, tensor_smul s1 p.2))) e.1 e.2))
    = (e.1, trace_val base (Tc.map (fun p => (p.1, tensor_smul (s1 + s2) p.2))) e.1 e.2)
  exact congrArg (fun x => (e.1, x)) (trace_val_scaled base Tc s1 s2 e.1 e.2 (hmem s1))

/-! ### Top-level characterizations of the accumulator -/

theorem apply_lora_to_weights_eq (b l : WeightSet) (s : ℚ) :
    apply_lora_to_weights b l s
      = apply_trace b ((lora_group_keys l).filterMap (pair_decision b l s)) := by
  unfold apply_lora_to_weights
  rw [apply_lora_run_eq]

theorem apply_lora_printed_count_eq (b l : WeightSet) (s : ℚ) :
    apply_lora_printed_count b l s
      = ((lora_group_keys l).filter (fun g => (pair_decision b l s g).isSome)).length := by
  unfold apply_lora_printed_count
  rw [apply_lora_run_eq]

/-! ### Remaining helper lemmas -/

theorem apply_trace_keys (T : List (String × Tensor)) :
    ∀ m : WeightSet, keysOf (apply_trace m T) = keysOf m := by
  induction T with
  | nil => intro m; rfl
  | cons p T ih =>
    intro m
    show keysOf
      (apply_trace (updateT m p.1 (tensor_add (tensor_cast (lookupT m p.1) p.2.dtype) p.2)) T) = _
    rw [ih _, keysOf_updateT]

theorem apply_lora_keysOf (b l : WeightSet) (s : ℚ) :
    keysOf (apply_lora_to_weights b l s) = keysOf b := by
  rw [apply_lora_to_weights_eq]
  exact apply_trace_keys _ b

/-! ### Claim theorems -/

/-- C1 (code bug): the spec/claim describe the conv delta as the contraction
delta[o,i,h,w] = Σ_r up[o,r,0,0]·down[r,i,h,w] of shape [out,in,kh,kw]
(`conv_delta_spec`, which at this input has exactly the target's shape and
would be applied).  The source's einsum 'orhw,rich->oicw' instead contracts
down's kw axis against up's size-1 axis 2 and emits up's size-1 axis 3 as the
trailing output axis, producing shape [out,in,kh,1]; for kw = 2 the attempted
reshape fails (1 ≠ 2 elements) and the pair is skipped: the merge returns the
base unchanged with an applied count of 0, against the claim. -/
theorem C1_conv_contraction_bug :
    einsum_orhw_rich_oicw conv_up conv_down = some ⟨[1, 1, 1, 1], DType.bfloat16, [3]⟩ ∧
    conv_delta_spec conv_up conv_down = ⟨[1, 1, 1, 2], DType.bfloat16, [1, 2]⟩ ∧
    (conv_delta_spec conv_up conv_down).shape = (lookupT conv_base "w").shape ∧
    apply_lora_run conv_base conv_lora 1 = (conv_base, 0) := by
  with_unfolding_all decide

/-- C3: merging never adds or removes an identifier: the accumulator's output
has the base's identifier list, and so does a whole merge job, whatever the
adapters resolve to. -/
theorem C3_identifier_preservation :
    (∀ (b l : WeightSet) (s : ℚ), keysOf (apply_lora_to_weights b l s) = keysOf b) ∧
    (∀ (fs : String → Option WeightSet) (w : WeightSet) (jobs : List (String × ℚ)),
      keysOf (merge_job fs w jobs) = keysOf w) := by
  refine ⟨apply_lora_keysOf, ?_⟩
  intro fs w jobs
  induction jobs generalizing w with
  | nil => rfl
  | cons e rest ih =>
    show keysOf (List.foldl _ (merge_step fs w e).1 rest) = _
    cases hfs : fs e.1 with
    | none =>
      have h1 : (merge_step fs w e).1 = w := by
        rw [merge_step, hfs, Option.elim_none]
      rw [h1]
      exact ih w
    | some lora =>
      have h1 : (merge_step fs w e).1 = apply_lora_to_weights w lora e.2 := by
        rw [merge_step, hfs, Option.elim_some]
        rfl
      rw [h1]
      exact (ih (apply_lora_to_weights w lora e.2)).trans (apply_lora_keysOf w lora e.2)

/-- C7: the finalizer casts exactly the float32 tensors to bfloat16, leaves
every other tensor (bfloat16 or otherwise) untouched, and is idempotent. -/
theorem C7_finalizer_cast_idempotent (w : WeightSet) :
    finalize_weights (finalize_weights w) = finalize_weights w ∧
    ∀ e ∈ w, (e.2.dtype = DType.float32 →
        (e.1, tensor_cast e.2 DType.bfloat16) ∈ finalize_weights w) ∧
      (¬ e.2.dtype = DType.float32 → e ∈ finalize_weights w) := by
  constructor
  · rw [finalize_weights, finalize_weights, List.map_map]
    refine list_map_congr _ _ w (fun e _ => ?_)
    by_cases hd : e.2.dtype = DType.float32
    · simp [hd, tensor_cast]
    · simp [hd]
  · intro e he
    constructor
    · intro hd
      rw [finalize_weights]
      refine List.mem_map.mpr ⟨e, he, ?_⟩
      rw [if_pos hd]
    · intro hd
      rw [finalize_weights]
      refine List.mem_map.mpr ⟨e, he, ?_⟩
      rw [if_neg hd]

/-- Witness for C7 at a concrete mixed-precision weight set. -/
theorem C7_finalizer_witness :
    finalize_weights (finalize_weights fin_w) = finalize_weights fin_w ∧
    ("a", tensor_cast ⟨[1], DType.float32, [1]⟩ DType.bfloat16) ∈ finalize_weights fin_w ∧
    ("b", (⟨[1], DType.bfloat16, [2]⟩ : Tensor)) ∈ finalize_weights fin_w :=
  ⟨(C7_finalizer_cast_idempotent fin_w).1,
   (((C7_finalizer_cast_idempotent fin_w).2 ("a", ⟨[1], DType.float32, [1]⟩) (by decide)).1
     (by decide)),
   (((C7_finalizer_cast_idempotent fin_w).2 ("b", ⟨[1], DType.bfloat16, [2]⟩) (by decide)).2
     (by decide))⟩

/-- C9: a missing adapter file is non-fatal: that slot applies zero pairs,
leaves the working weight set untouched, and the job continues with the
remaining adapters. -/
theorem C9_missing_adapter_file (fs : String → Option WeightSet) (w : WeightSet)
    (p : String) (s : ℚ) (rest : List (String × ℚ)) (h : fs p = none) :
    merge_step fs w (p, s) = (w, 0) ∧
    merge_job fs w ((p, s) :: rest) = merge_job fs w rest := by
  have h1 : merge_step fs w (p, s) = (w, 0) := by
    show (fs p).elim (w, 0) _ = (w, 0)
    rw [h, Option.elim_none]
  refine ⟨h1, ?_⟩
  show List.foldl _ (merge_step fs w (p, s)).1 rest = _
  rw [h1]
  rfl

/-- Witness for C9: a filesystem with no adapter files. -/
theorem C9_missing_adapter_witness :
    (fun _ : String => (none : Option WeightSet)) ("missing") = none ∧
    merge_step (fun _ => none) lin_base ("missing", 1) = (lin_base, 0) ∧
    merge_job (fun _ => none) lin_base [("missing", 1)] =
      merge_job (fun _ => none) lin_base [] :=
  ⟨rfl,
   (C9_missing_adapter_file (fun _ => none) lin_base ("missing") 1 [] rfl).1,
   (C9_missing_adapter_file (fun _ => none) lin_base ("missing") 1 [] rfl).2⟩

/-- C10: a group whose down factor is present under a convention whose up
factor is absent is skipped silently: the applied counter and every tensor of
the working weight set are untouched (convention 1, `lora_down`/`lora_up`,
takes precedence; convention 2, `lora_A`/`lora_B`, is only consulted when no
`lora_down` key exists). -/
theorem C10_missing_up_factor_skipped (l : WeightSet) (s : ℚ) (m : WeightSet) (a : Nat)
    (g : String)
    (h : (containsKey l (String.append g (".lora_down.weight")) = true
        ∧ containsKey l (String.append g (".lora_up.weight")) = false)
      ∨ (containsKey l (String.append g (".lora_down.weight")) = false
        ∧ containsKey l (String.append g (".lora_A.weight")) = true
        ∧ containsKey l (String.append g (".lora_B.weight")) = false)) :
    apply_group l s (m, a) g = (m, a) := by
  have hpd : pair_decision m l s g = none := by
    rw [pair_decision]
    cases h with
    | inl hc =>
      obtain ⟨hd, hu⟩ := hc
      rw [pair_conv, if_pos hd, Option.some_bind]
      rw [if_neg (by simp [hu])]
    | inr hc =>
      obtain ⟨hd0, hA, hB⟩ := hc
      rw [pair_conv, if_neg (by simp [hd0]), if_pos hA, Option.some_bind]
      rw [if_neg (by simp [hB])]
  rw [apply_group_none l s m a g hpd]

/-- Witness for C10: down factor present, up factor absent, group skipped. -/
theorem C10_missing_up_factor_witness :
    (containsKey c10_lora (String.append ("g") (".lora_down.weight")) = true
      ∧ containsKey c10_lora (String.append ("g") (".lora_up.weight")) = false) ∧
    apply_group c10_lora 1 (lin_base, 0) "g" = (lin_base, 0) :=
  ⟨⟨by decide, by decide⟩,
   C10_missing_up_factor_skipped c10_lora 1 lin_base 0 ("g")
     (Or.inl ⟨by decide, by decide⟩)⟩

/-- C4: target-key resolution tries, in order, the stripped identifier, the
identifier with underscores turned to dots, and both again under the
`model.diffusion_model.` prefix; each candidate is tested for direct
membership first and then with the `.weight` suffix; the first hit wins, any
returned identifier is a member of the base set, a total miss resolves to
`none` and leaves the accumulator state untouched for that group, and
resolution is a pure function, hence deterministic. -/
theorem C4_resolver_first_match (m : WeightSet) (k : String) :
    base_key_candidates k = [k, strReplace k ("_") ("."),
      String.append ("model.diffusion_model.") k,
      String.append ("model.diffusion_model.") (strReplace k ("_") ("."))] ∧
    (∀ c, containsKey m c = true → candidate_hit m c = some c) ∧
    (∀ c t, candidate_hit m c = some t → containsKey m t = true) ∧
    (∀ t, resolve_target m k = some t →
      ∃ pre c post, base_key_candidates k = pre ++ c :: post ∧
        candidate_hit m c = some t ∧ ∀ c0 ∈ pre, candidate_hit m c0 = none) ∧
    (resolve_target m k = none →
      ∀ c ∈ base_key_candidates k, containsKey m c = false ∧
        containsKey m (String.append c (".weight")) = false) ∧
    (∀ (l : WeightSet) (s : ℚ) (a : Nat) (g : String),
      resolve_target m (map_base_key g) = none → apply_group l s (m, a) g = (m, a)) ∧
    resolve_target m k = resolve_target m k := by
  refine ⟨rfl, ?_, candidate_hit_mem m, ?_, ?_, ?_, rfl⟩
  · intro c h
    rw [candidate_hit, if_pos h]
  · intro t h
    exact findSome?_split _ _ _ h
  · intro h c hc
    have h0 := findSome?_none_all _ _ h c hc
    rw [candidate_hit] at h0
    by_cases h1 : containsKey m c = true
    · rw [if_pos h1] at h0; cases h0
    · by_cases h2 : containsKey m (String.append c (".weight")) = true
      · rw [if_neg h1, if_pos h2] at h0; cases h0
      · exact ⟨by simpa using h1, by simpa using h2⟩
  · intro l s a g hres
    have hpd : pair_decision m l s g = none := by
      rw [pair_decision]
      cases hc : pair_conv l g with
      | none => rw [Option.none_bind]
      | some ku =>
        rw [Option.some_bind]
        by_cases hu : containsKey l ku.2 = true
        · rw [if_pos hu, hres, Option.none_bind]
        · rw [if_neg hu]
    rw [apply_group_none l s m a g hpd]

/-- Witness for C4: `a_b` resolves in `c4_base` only through the prefixed,
dot-translated candidate with the `.weight` suffix. -/
theorem C4_resolver_witness :
    resolve_target c4_base ("a_b") = some ("model.diffusion_model.a.b.weight") ∧
    containsKey c4_base ("model.diffusion_model.a.b.weight") = true ∧
    (∃ pre c post, base_key_candidates ("a_b") = pre ++ c :: post ∧
      candidate_hit c4_base c = some ("model.diffusion_model.a.b.weight") ∧
      ∀ c0 ∈ pre, candidate_hit c4_base c0 = none) :=
  ⟨by decide,
   (C4_resolver_first_match c4_base ("a_b")).2.2.1 ("model.diffusion_model.a.b")
     ("model.diffusion_model.a.b.weight") (by decide),
   (C4_resolver_first_match c4_base ("a_b")).2.2.2.1 ("model.diffusion_model.a.b.weight")
     (by decide)⟩

/-- C5 counterexample: the applied-pair count is not part of what the
accumulator returns.  Two different calls — an empty adapter, and a
one-pair adapter applied with strength 0 — return the very same weight set
while their applied counts (what line 151 prints) differ, so no caller could
recover the count from the function's return value. -/
theorem C5_count_not_returned :
    apply_lora_to_weights c5_base [] 1 = apply_lora_to_weights c5_base c5_lora 0 ∧
    ¬ apply_lora_printed_count c5_base [] 1 = apply_lora_printed_count c5_base c5_lora 0 := by
  with_unfolding_all decide

/-- C5 (amended): the accumulator returns the mutated working copy of the
base — the base with every applied group's delta folded in — and prints the
applied-pair count on the console rather than returning it. -/
theorem C5_returns_copy_prints_count (b l : WeightSet) (s : ℚ) :
    apply_lora_to_weights b l s
      = apply_trace b ((lora_group_keys l).filterMap (pair_decision b l s)) ∧
    apply_lora_printed_count b l s
      = ((lora_group_keys l).filter (fun g => (pair_decision b l s g).isSome)).length :=
  ⟨apply_lora_to_weights_eq b l s, apply_lora_printed_count_eq b l s⟩

/-- C6: for an adapter whose factor pairs are all 2-dimensional (linear
layers), applying it with strength s1 and then s2 equals applying it once
with strength s1 + s2, in the exact (rational) arithmetic of this model.
(The hypothesis states the claim's restriction to linear-layer adapters; the
delta construction is linear in the strength, so the proof does not depend
on it.) -/
theorem C6_strength_additive (base lora : WeightSet) (s1 s2 : ℚ)
    (hlin : (lora_group_keys lora).all (fun g =>
      ([".lora_down.weight", ".lora_up.weight", ".lora_A.weight", ".lora_B.weight"].all
        (fun sfx => (findT lora (String.append g sfx)).elim true
          (fun t0 => t0.shape.length == 2)))) = true) :
    apply_lora_to_weights (apply_lora_to_weights base lora s1) lora s2
      = apply_lora_to_weights base lora (s1 + s2) := by
  rw [apply_lora_to_weights_eq base lora s1,
    apply_lora_to_weights_eq
      (apply_trace base ((lora_group_keys lora).filterMap (pair_decision base lora s1)))
      lora s2,
    apply_lora_to_weights_eq base lora (s1 + s2)]
  have hcongr : ∀ g ∈ lora_group_keys lora,
      pair_decision
          (apply_trace base ((lora_group_keys lora).filterMap (pair_decision base lora s1)))
          lora s2 g
        = pair_decision base lora s2 g := by
    intro g _
    exact pair_decision_congr _ base lora s2 g
      (fun k => apply_trace_containsKey _ base k)
      (fun k => apply_trace_shape _ base k)
  rw [list_filterMap_congr _ _ (lora_group_keys lora) hcongr]
  have hTs : ∀ s : ℚ, (lora_group_keys lora).filterMap (pair_decision base lora s)
      = ((lora_group_keys lora).filterMap (pair_decision base lora 1)).map
          (fun p => (p.1, tensor_smul s p.2)) := by
    intro s
    have hfun : pair_decision base lora s
        = fun g => (pair_decision base lora 1 g).map (fun p => (p.1, tensor_smul s p.2)) :=
      funext (fun g => pair_decision_smul base lora s g)
    rw [hfun, ← List.map_filterMap]
  have hmemTc : ∀ p ∈ (lora_group_keys lora).filterMap (pair_decision base lora 1),
      containsKey base p.1 = true := by
    intro p hp
    obtain ⟨g, _, hg⟩ := List.mem_filterMap.mp hp
    exact (pair_decision_inv base lora 1 g p.1 p.2 hg).1
  rw [hTs s1, hTs s2, hTs (s1 + s2)]
  exact apply_trace_scaled base _ s1 s2 hmemTc

/-- Witness for C6 on the concrete linear adapter: strengths 1 then 2 equal
strength 3 in one pass. -/
theorem C6_strength_additive_witness :
    ((lora_group_keys lin_lora).all (fun g =>
      ([".lora_down.weight", ".lora_up.weight", ".lora_A.weight", ".lora_B.weight"].all
        (fun sfx => (findT lin_lora (String.append g sfx)).elim true
          (fun t0 => t0.shape.length == 2)))) = true) ∧
    apply_lora_to_weights (apply_lora_to_weights lin_base lin_lora 1) lin_lora 2
      = apply_lora_to_weights lin_base lin_lora (1 + 2) :=
  ⟨by decide, C6_strength_additive lin_base lin_lora 1 2 (by decide)⟩

/-- C2: for an adapter pair (under either naming convention) with 2-d factors
down : [r, in] and up : [out, r] whose resolved target has shape [out, in],
the group is applied and the value added to the target is the matrix product
up·down times scale times strength, where scale = alpha / r for r > 0 and 1
otherwise, and alpha defaults to r (the down factor's leading dimension) when
the `<group>.alpha` entry is absent.  (The factors share a dtype, as
torch.matmul requires — a mismatch would raise and skip the pair.) -/
theorem C2_linear_delta (m lora : WeightSet) (a : Nat) (s : ℚ)
    (g downKey upKey t : String) (r inn out : Nat) (down up : Tensor)
    (hconv : (downKey = String.append g (".lora_down.weight")
        ∧ upKey = String.append g (".lora_up.weight")
        ∧ containsKey lora downKey = true)
      ∨ (containsKey lora (String.append g (".lora_down.weight")) = false
        ∧ downKey = String.append g (".lora_A.weight")
        ∧ upKey = String.append g (".lora_B.weight")
        ∧ containsKey lora downKey = true))
    (hup : containsKey lora upKey = true)
    (hdownv : findT lora downKey = some down)
    (hupv : findT lora upKey = some up)
    (hds : down.shape = [r, inn])
    (hus : up.shape = [out, r])
    (hdt : up.dtype = down.dtype)
    (hres : resolve_target m (map_base_key g) = some t)
    (hts : (lookupT m t).shape = [out, inn]) :
    apply_group lora s (m, a) g =
      (updateT m t (tensor_add (tensor_cast (lookupT m t) up.dtype)
        (tensor_smul s (tensor_smul
          (if 0 < r
           then ((findT lora (String.append g (".alpha"))).elim ((r : ℚ)) tensor_item) / (r : ℚ)
           else 1)
          (matmulVal up down)))), a + 1) := by
  have hlookd : lookupT lora downKey = down := by
    rw [lookupT, hdownv]
    rfl
  have hlooku : lookupT lora upKey = up := by
    rw [lookupT, hupv]
    rfl
  have hdim0 : dim down 0 = r := by
    rw [dim, hds]
    rfl
  have hdimu1 : dim up 1 = r := by
    rw [dim, hus]
    rfl
  have hscale : lora_pair_scale lora g down =
      (if 0 < r
       then ((findT lora (String.append g (".alpha"))).elim ((r : ℚ)) tensor_item) / (r : ℚ)
       else 1) := by
    rw [lora_pair_scale, hdim0]
  have hmm : matmul2 up down = some (matmulVal up down) := by
    rw [matmul2, if_pos ⟨hdt, by rw [hdimu1, hdim0]⟩]
  have hδ : compute_delta down up (lora_pair_scale lora g down) s (lookupT m t).shape
      = some (tensor_smul s (tensor_smul (lora_pair_scale lora g down) (matmulVal up down))) := by
    rw [compute_delta,
      if_pos (⟨by rw [hds]; rfl, by rw [hus]; rfl⟩ :
        down.shape.length = 2 ∧ up.shape.length = 2),
      hmm, Option.map_some']
  have hδshape : (tensor_smul s
        (tensor_smul (lora_pair_scale lora g down) (matmulVal up down))).shape
      = (lookupT m t).shape := by
    rw [tensor_smul_shape, tensor_smul_shape, hts]
    show [dim up 0, dim down 1] = [out, inn]
    rw [dim, dim, hus, hds]
    rfl
  have hpc : pair_conv lora g = some (downKey, upKey) := by
    cases hconv with
    | inl hc =>
      obtain ⟨hdk, huk, hdm⟩ := hc
      rw [pair_conv, if_pos (by rw [← hdk]; exact hdm), ← hdk, ← huk]
    | inr hc =>
      obtain ⟨h0, hdk, huk, hdm⟩ := hc
      rw [pair_conv, if_neg (by simp [h0]), if_pos (by rw [← hdk]; exact hdm), ← hdk, ← huk]
  have hpd : pair_decision m lora s g
      = some (t, tensor_smul s (tensor_smul (lora_pair_scale lora g down) (matmulVal up down))) := by
    rw [pair_decision, hpc, Option.some_bind]
    simp only [hup, eq_self_iff_true, if_true, hres, Option.some_bind, hlookd, hlooku, hδ,
      hδshape]
  rw [apply_group_some lora s m a g t _ hpd, hscale]
  rfl

/-- Witness for C2: the end-to-end scenario of spec section 8 — base [2,2],
down [1,2], up [2,1], alpha = 2, strength 1; the target resolves through the
`.weight` suffix and receives up·down × 2. -/
theorem C2_linear_delta_witness :
    containsKey lin_lora (String.append ("lora_unet_layer") (".lora_up.weight")) = true ∧
    findT lin_lora (String.append ("lora_unet_layer") (".lora_down.weight")) = some lin_down ∧
    resolve_target lin_base (map_base_key ("lora_unet_layer")) = some ("layer.weight") ∧
    apply_group lin_lora 1 (lin_base, 0) "lora_unet_layer" =
      (updateT lin_base ("layer.weight")
        (tensor_add (tensor_cast (lookupT lin_base ("layer.weight")) lin_up.dtype)
          (tensor_smul 1 (tensor_smul
            (if 0 < 1
             then ((findT lin_lora (String.append ("lora_unet_layer") (".alpha"))).elim
               (((1 : Nat) : ℚ)) tensor_item) / ((1 : Nat) : ℚ)
             else 1)
            (matmulVal lin_up lin_down)))), 0 + 1) :=
  ⟨by decide, by decide, by decide,
   C2_linear_delta lin_base lin_lora 0 1 "lora_unet_layer"
     (String.append ("lora_unet_layer") (".lora_down.weight"))
     (String.append ("lora_unet_layer") (".lora_up.weight"))
     "layer.weight" 1 2 2 lin_down lin_up
     (Or.inl ⟨rfl, rfl, by decide⟩)
     (by decide) (by decide) (by decide) (by decide) (by decide) (by decide)
     (by decide) (by decide)⟩

/-- C8: whenever a pair is applied, the stored target is the old target
promoted (cast) to the delta's dtype plus the delta: the accumulation happens
in the delta's precision, and the stored tensor carries the delta's dtype. -/
theorem C8_promote_to_delta_dtype (m l : WeightSet) (a : Nat) (s : ℚ) (g t : String)
    (d : Tensor) (h : pair_decision m l s g = some (t, d)) :
    apply_group l s (m, a) g
      = (updateT m t (tensor_add (tensor_cast (lookupT m t) d.dtype) d), a + 1) ∧
    (lookupT (apply_group l s (m, a) g).1 t).dtype = d.dtype ∧
    (lookupT (apply_group l s (m, a) g).1 t).data
      = List.zipWith (fun x y => x + y) (lookupT m t).data d.data := by
  obtain ⟨hmem, _⟩ := pair_decision_inv m l s g t d h
  have hstep := apply_group_some l s m a g t d h
  refine ⟨hstep, ?_, ?_⟩
  · rw [hstep]
    show (lookupT (updateT m t (tensor_add (tensor_cast (lookupT m t) d.dtype) d)) t).dtype
      = d.dtype
    rw [lookupT_updateT_self m t _ hmem]
    rfl
  · rw [hstep]
    show (lookupT (updateT m t (tensor_add (tensor_cast (lookupT m t) d.dtype) d)) t).data = _
    rw [lookupT_updateT_self m t _ hmem]
    rfl

/-- Witness for C8 on the concrete linear pair: the target's stored tensor
takes the delta's dtype and its data is the promoted base plus the delta. -/
theorem C8_promote_witness :
    pair_decision lin_base lin_lora 1 "lora_unet_layer" = some ("layer.weight", lin_delta) ∧
    apply_group lin_lora 1 (lin_base, 0) "lora_unet_layer"
      = (updateT lin_base ("layer.weight")
          (tensor_add (tensor_cast (lookupT lin_base ("layer.weight")) lin_delta.dtype)
            lin_delta), 0 + 1) ∧
    (lookupT (apply_group lin_lora 1 (lin_base, 0) "lora_unet_layer").1 ("layer.weight")).dtype
      = lin_delta.dtype :=
  ⟨by with_unfolding_all decide,
   (C8_promote_to_delta_dtype lin_base lin_lora 0 1 "lora_unet_layer" ("layer.weight")
     lin_delta (by with_unfolding_all decide)).1,
   (C8_promote_to_delta_dtype lin_base lin_lora 0 1 "lora_unet_layer" ("layer.weight")
     lin_delta (by with_unfolding_all decide)).2.1⟩
